import Mathlib

/-!
Verification of the Tribud backup tool (src/src/tribud/model.py and its
callers) against its natural-language specification.  The configuration
side models Python values as a tagged universe `PyVal`; the copy engine
is modelled over an explicit filesystem tree with state passing.  Machine
behaviour that the source relies on (pathlib, os.path, shutil) is
embedded from the documented semantics of those library calls.
-/

namespace Tribud

/-- The string used for the POSIX path separator and root anchor. -/
def slash : String := "/"

/-- Python value universe, as used for configuration data in model.py:
strings, integers, booleans, None, JSON lists and dicts, and tuples of
strings (parent paths produced by `flatten` are tuples of keys). -/
inductive PyVal where
  | vstr (s : String)
  | vint (n : Int)
  | vbool (b : Bool)
  | vnone
  | vlist (xs : List PyVal)
  | vdict (xs : List (String × PyVal))
  | vtuple (xs : List String)

/-- Python type tags, the possible first components of an option
definition tuple (`str`, `int`, `bool`, `list`, `dict`, `tuple`). -/
inductive PyType where
  | tstr | tint | tbool | tlist | tdict | ttuple
deriving DecidableEq

/-- Python `isinstance(value, ty)` for the modelled universe.  A Python
`bool` is an instance of `int` (bool subclasses int). -/
def isinstance : PyVal → PyType → Bool
  | .vstr _, .tstr => true
  | .vint _, .tint => true
  | .vbool _, .tbool => true
  | .vbool _, .tint => true
  | .vlist _, .tlist => true
  | .vdict _, .tdict => true
  | .vtuple _, .ttuple => true
  | _, _ => false

/-- Errors that the modelled Python code can raise. -/
inductive PyErr where
  | typeError
deriving DecidableEq

/-- model.py `path_check` (lines 20-32): builds `pathlib.Path(path_to_check)`
and returns whether it is absolute.  `pathlib.Path` accepts only `str`
(or os.PathLike) arguments, so every non-string value — including a list
of path strings — raises `TypeError`.  For a string, POSIX absoluteness
is "starts with the separator". -/
def path_check : PyVal → Except PyErr Bool
  | .vstr s => .ok (s.startsWith slash)
  | _ => .error .typeError

/-- model.py `ConfOpt`: one flattened configuration option.  `option` is
the full key path (parent tuple plus final key) and `value` the leaf
value.  The `logger` attribute is process-wide state with no bearing on
the modelled behaviour and is omitted. -/
structure ConfOpt where
  option : List String
  value : PyVal

/-- model.py `ConfOpt.__init__` (lines 75-81): when `opt_parent` is not a
tuple (e.g. `None`), the stored path is just `(opt_key,)`; otherwise it
is `opt_parent + (opt_key,)`. -/
def ConfOpt.init (opt_parent : PyVal) (opt_key : String) (opt_value : PyVal) : ConfOpt :=
  match opt_parent with
  | .vtuple xs => ⟨xs ++ [opt_key], opt_value⟩
  | _ => ⟨[opt_key], opt_value⟩

/-- model.py `ConfOpt.is_key` (lines 92-103): compares
`option[:-1] == self.option[:-1] and option[-1] == self.option[-1]`.
`List.dropLast` models `[:-1]` and `List.getLast?` models `[-1]`;
the stored `self.option` is never empty (the constructor appends the
key), and no caller passes an empty candidate (Python would raise
IndexError there). -/
def ConfOpt.is_key (o : ConfOpt) (cand : List String) : Bool :=
  cand.dropLast == o.option.dropLast && cand.getLast? == o.option.getLast?

/-- model.py `ConfOpt.check` (lines 105-127): an option definition is a
tuple (expected type, expected parent path, check callable).  Tests run
in order — `isinstance` first (else 2), then parent equality (else 3),
then the callable on the value (1 if it passes, 4 if not).  A callable
that raises (as `path_check` does on a list) propagates its exception. -/
def ConfOpt.check (o : ConfOpt)
    (option_definition : PyType × List String × (PyVal → Except PyErr Bool)) :
    Except PyErr Nat :=
  if isinstance o.value option_definition.1 then
    if option_definition.2.1 = o.option.dropLast then
      match option_definition.2.2 o.value with
      | .ok true => .ok 1
      | .ok false => .ok 4
      | .error e => .error e
    else .ok 3
  else .ok 2

/-- A declared schema rule, as supplied by the repository's caller
(tribud.py `CONFIG_KEYS_DEFINITION`: `key: (mandatory, (type, parent
tuple, check function))`, where the check function may be `None`). -/
structure SchemaRule where
  mandatory : Bool
  ty : PyType
  parent : List String
  pred : Option (PyVal → Except PyErr Bool)

deriving instance DecidableEq for Except

/-- The declared full path of a rule's option: expected parent plus key. -/
def ruleCand (k : String) (r : SchemaRule) : List String :=
  r.parent ++ [k]

/-- Check one option against a rule using the real `ConfOpt.check`; per
the spec an absent check callable is treated as passing. -/
def checkWithRule (o : ConfOpt) (r : SchemaRule) : Except PyErr Nat :=
  o.check (r.ty, r.parent, fun v =>
    match r.pred with
    | some f => f v
    | none => .ok (true))

/-- Modelled from the spec: `ConfigValidator.lookup` — the first option
whose `is_key` matches the candidate path.  The body of
`ConfigManager.sanitize` (src/src/tribud/model.py lines 160-173) is a
stub (`pass`), so the lookup/reporting behaviour is modelled from spec
section 4.3. -/
def lookupOpt (opts : List ConfOpt) (cand : List String) : Option ConfOpt :=
  opts.find? (fun o => o.is_key cand)

/-- Modelled from the spec: the report contributed by a single declared
rule — the declared full path when a mandatory option is absent, the
option's full path when it is present but does not check OK. -/
def ruleReport (opts : List ConfOpt) (k : String) (r : SchemaRule) : List (List String) :=
  match lookupOpt opts (ruleCand k r) with
  | none => if r.mandatory then [ruleCand k r] else []
  | some o => if checkWithRule o r = .ok 1 then [] else [o.option]

/-- Whether some declared rule's candidate path matches the option. -/
def matchedByRule (schema : List (String × SchemaRule)) (o : ConfOpt) : Bool :=
  schema.any (fun kr => o.is_key (ruleCand kr.1 kr.2))

/-- Modelled from the spec: `ConfigManager.sanitize` (whose body in
src/src/tribud/model.py lines 160-173 is only `pass`).  Spec section
4.3: for each declared rule, report a missing mandatory option by its
declared full path and a present non-OK option by its full path; then
report every option matched by no rule. -/
def sanitize (opts : List ConfOpt) (schema : List (String × SchemaRule)) :
    List (List String) :=
  (schema.flatMap (fun kr => ruleReport opts kr.1 kr.2)) ++
    (opts.filter (fun o => !matchedByRule schema o)).map (fun o => o.option)

/-- Full schema compliance, written from the spec's words (sections 3
and 4.3): every mandatory rule has a matching option, every option found
for a rule checks OK, and every option is matched by some rule. -/
def schemaCompliant (opts : List ConfOpt) (schema : List (String × SchemaRule)) : Prop :=
  (∀ kr ∈ schema, kr.2.mandatory = true →
      ∃ o ∈ opts, o.is_key (ruleCand kr.1 kr.2) = true) ∧
  (∀ kr ∈ schema, ∀ o, lookupOpt opts (ruleCand kr.1 kr.2) = some o →
      checkWithRule o kr.2 = .ok 1) ∧
  (∀ o ∈ opts, matchedByRule schema o = true)

/-- A filesystem entry: a regular file (with an abstract content id), a
symbolic link storing its target path as data (the on-disk form: a link
is a leaf naming a path, it does not contain its target's entries), or a
directory with named children.  Special files (FIFOs, sockets, devices)
do not occur in the modelled scenarios. -/
inductive Entry where
  | file (content : Nat)
  | symlink (target : List String)
  | dir (children : List (String × Entry))

/-- The filesystem: the root directory's children, plus the set of
directory paths in which creating an entry is denied (modelling write
permission for `os.makedirs`). -/
structure FS where
  root : List (String × Entry)
  denied : List (List String)

/-- Look up a name in a directory's child list. -/
def findChild (cs : List (String × Entry)) (n : String) : Option Entry :=
  (cs.find? (fun c => c.1 == n)).map (fun c => c.2)

/-- Replace the first child named `n`, or append one if absent. -/
def setChild : List (String × Entry) → String → Entry → List (String × Entry)
  | [], n, e => [(n, e)]
  | c :: cs, n, e =>
    if c.1 == n then (n, e) :: cs else c :: setChild cs n e

/-- Follow an absolute path (as a segment list) down the tree. -/
def Entry.lookup : Entry → List String → Option Entry
  | e, [] => some e
  | .dir cs, n :: p =>
    match findChild cs n with
    | some e => e.lookup p
    | none => none
  | _, _ :: _ => none

/-- Absolute-path lookup from the filesystem root. -/
def FS.lookup (fs : FS) (p : List String) : Option Entry :=
  (Entry.dir fs.root).lookup p

/-- Write `enew` at path `p`: replaces an existing entry, or creates a
new entry directly under an existing directory; `none` when an
intermediate directory is missing or a non-directory is traversed. -/
def Entry.set : Entry → List String → Entry → Option Entry
  | _, [], enew => some enew
  | .dir cs, n :: p, enew =>
    match findChild cs n with
    | some sub =>
      match sub.set p enew with
      | some sub' => some (.dir (setChild cs n sub'))
      | none => none
    | none =>
      match p with
      | [] => some (.dir (setChild cs n enew))
      | _ :: _ => none
  | _, _ :: _, _ => none

/-- Write an entry at an absolute path, keeping the denied set. -/
def FS.writeEntry (fs : FS) (p : List String) (e : Entry) : Option FS :=
  match (Entry.dir fs.root).set p e with
  | some (.dir r) => some { fs with root := r }
  | _ => none

/-- Errors raised by the modelled os/shutil calls. -/
inductive OSErr where
  | permissionError
  | fileExistsError
  | notADirectoryError
  | isADirectoryError
  | fileNotFoundError
  | sameFileError
deriving DecidableEq

/-- Worker for `os.makedirs(p, exist_ok=True)`: walk the segments of
`p`, creating each missing directory.  An existing non-directory on the
way raises NotADirectoryError (FileExistsError when it is the final
segment); creating inside a denied directory raises PermissionError. -/
def makedirsGo (fs : FS) (done : List String) : List String → Except OSErr FS
  | [] => .ok fs
  | n :: rest =>
    match fs.lookup (done ++ [n]) with
    | some (.dir _) => makedirsGo fs (done ++ [n]) rest
    | some _ =>
      .error (if rest.isEmpty then .fileExistsError else .notADirectoryError)
    | none =>
      if fs.denied.contains done then .error .permissionError
      else
        match fs.writeEntry (done ++ [n]) (.dir []) with
        | some fs' => makedirsGo fs' (done ++ [n]) rest
        | none => .error .notADirectoryError

/-- `os.makedirs(p, exist_ok=True)`. -/
def FS.makedirs (fs : FS) (p : List String) : Except OSErr FS :=
  makedirsGo fs [] p

/-- `shutil.copy2(src, dst, follow_symlinks=False)`: when `dst` is a
directory, the real target is `dst/<basename of src>`; copying a path
onto itself raises SameFileError; copying a directory source or over an
existing directory raises IsADirectoryError; symlinks are copied as
links.  Metadata preservation has no observable effect in this model. -/
def copyTarget (fs : FS) (src dst : List String) : List String :=
  match fs.lookup dst with
  | some (.dir _) => dst ++ [src.getLastD slash]
  | _ => dst

def FS.copy2 (fs : FS) (src dst : List String) : Except OSErr FS :=
  match fs.lookup src with
  | none => .error .fileNotFoundError
  | some (.dir _) => .error .isADirectoryError
  | some e =>
    if copyTarget fs src dst = src then .error .sameFileError
    else
      match fs.lookup (copyTarget fs src dst) with
      | some (.dir _) => .error .isADirectoryError
      | _ =>
        match fs.writeEntry (copyTarget fs src dst) e with
        | some fs' => .ok fs'
        | none => .error .fileNotFoundError

/-- `shutil.copytree(src, dst, symlinks=True)`: `dst` must not already
exist (FileExistsError otherwise); the directory tree rooted at `src`
is reproduced at `dst` with symlinks preserved as links; a
non-directory source raises NotADirectoryError. -/
def FS.copytreeLib (fs : FS) (src dst : List String) : Except OSErr FS :=
  match fs.lookup src with
  | none => .error .fileNotFoundError
  | some (.dir cs) =>
    match fs.lookup dst with
    | some _ => .error .fileExistsError
    | none =>
      match fs.makedirs dst with
      | .error e => .error e
      | .ok fs1 =>
        match fs1.writeEntry dst (.dir cs) with
        | some fs' => .ok fs'
        | none => .error .notADirectoryError
  | some _ => .error .notADirectoryError

/-- The test `src.is_file() or src.is_symlink()` used throughout
`_copytree`: `is_file` follows symlinks and `is_symlink` is true for any
link, so the disjunction holds exactly when the entry is not a real
directory (and is false for a missing path). -/
def isFileOrSymlink : Option Entry → Bool
  | some (.file _) => true
  | some (.symlink _) => true
  | _ => false

/-- `pathlib.Path.is_file()`: true when the path resolves (following
symlink chains, with `fuel` bounding chain length as the OS caps
ELOOP — unresolvable chains yield False, as pathlib returns False on
OSError) to a regular file. -/
def FS.is_file (fs : FS) : Nat → List String → Bool
  | fuel, p =>
    match fs.lookup p, fuel with
    | some (.file _), _ => true
    | some (.symlink t), fuel' + 1 => fs.is_file fuel' t
    | _, _ => false

/-- The `for child in src.iterdir():` loop of `_copytree`, over the
snapshot of child names, parameterized by the recursive `_copytree`
call `rec`: file/symlink children are copied directly into `dst` with
`copy2` (errors propagate, aborting the loop as an uncaught exception
would), directory children recurse — the recursive call's int return
value is discarded, exactly as in the source. -/
def copyChildren
    (rec : FS → List String → List String → Option (Except OSErr (FS × Nat))) :
    FS → List String → List String → List String → Option (Except OSErr FS)
  | fs, _, _, [] => some (.ok fs)
  | fs, src, dst, n :: ns =>
    if isFileOrSymlink (fs.lookup (src ++ [n])) then
      match fs.copy2 (src ++ [n]) dst with
      | .error e => some (.error e)
      | .ok fs' => copyChildren rec fs' src dst ns
    else
      match rec fs (src ++ [n]) (dst ++ [n]) with
      | none => none
      | some (.error e) => some (.error e)
      | some (.ok (fs', _)) => copyChildren rec fs' src dst ns

/-- model.py `DirHandler._copytree` (lines 462-480), with explicit fuel
so that termination is a provable property rather than an assumption
(`none` means the fuel ran out).  If the source is a file or symlink:
`os.makedirs(dst, exist_ok=True)` (a PermissionError is caught, logged
and turned into return value 1; other errors propagate), then
`shutil.copy2(src, dst, follow_symlinks=False)` whose errors propagate.
Otherwise, if the destination exists, iterate the source directory's
children (`iterdir` snapshot), copying file/symlink children with
`copy2` and recursing on directory children; otherwise bulk-copy with
`shutil.copytree(src, dst, symlinks=True)`.  On normal completion the
Python function returns an int (0, or 1 after a caught
PermissionError); it never returns a list of failures. -/
def copytreeRun : Nat → FS → List String → List String →
    Option (Except OSErr (FS × Nat))
  | 0, _, _, _ => none
  | fuel + 1, fs, src, dst =>
    if isFileOrSymlink (fs.lookup src) then
      match fs.makedirs dst with
      | .error .permissionError => some (.ok (fs, 1))
      | .error e => some (.error e)
      | .ok fs1 =>
        match fs1.copy2 src dst with
        | .error e => some (.error e)
        | .ok fs2 => some (.ok (fs2, 0))
    else if (fs.lookup dst).isSome then
      match fs.lookup src with
      | some (.dir cs) =>
        match copyChildren (copytreeRun fuel) fs src dst
            (cs.map (fun c => c.1)) with
        | none => none
        | some (.error e) => some (.error e)
        | some (.ok fs') => some (.ok (fs', 0))
      | _ => some (.error .fileNotFoundError)
    else
      match fs.copytreeLib src dst with
      | .error e => some (.error e)
      | .ok fs' => some (.ok (fs', 0))

/-- A Python path string, decomposed: whether it is absolute, and its
segments (no empty, dot or dot-dot segments occur in the modelled
runs, so `os.path` normalization is the identity on them). -/
structure PyPath where
  isAbs : Bool
  segs : List String

/-- `pathlib.PurePath.parts`: beginning with the root anchor for an
absolute path. -/
def PyPath.parts (p : PyPath) : List String :=
  if p.isAbs then slash :: p.segs else p.segs

/-- `os.path.abspath(path)` with current working directory `cwd`: an
absolute path is returned unchanged, a relative one is joined onto
`cwd` (the OS guarantees `cwd` is absolute). -/
def os_abspath (cwd p : PyPath) : PyPath :=
  if p.isAbs then p else ⟨cwd.isAbs, cwd.segs ++ p.segs⟩

/-- model.py `DirHandler`: holds the backup destination path. -/
structure DirHandler where
  bckup_dst : PyPath

/-- model.py `DirHandler.__init__` (lines 416-418): stores
`pathlib.Path(os.path.abspath(path))`. -/
def DirHandler.init (cwd path : PyPath) : DirHandler :=
  ⟨os_abspath cwd path⟩

/-- model.py `DirHandler.connect` (lines 429-437): if the stored path is
absolute, `os.makedirs(self.bckup_dst, exist_ok=True)` (whose errors are
not caught) and log; otherwise only log a warning.  The Python method
has no return statement, so it returns None in both branches — modelled
as `Unit`. -/
def DirHandler.connect (h : DirHandler) (fs : FS) : Except OSErr (FS × Unit) :=
  if h.bckup_dst.isAbs then
    match fs.makedirs h.bckup_dst.segs with
    | .error e => .error e
    | .ok fs' => .ok (fs', ())
  else .ok (fs, ())

/-- The destination-path computation of `DirHandler.add` (lines
452-458): `dirs = src_path.parts[1:]`, with the last segment dropped
when `src_path.is_file()`, folded onto the stored destination with
`joinpath`. -/
def DirHandler.dstPath (h : DirHandler) (fs : FS) (src_path : PyPath)
    (fuel : Nat) : PyPath :=
  let dirs0 := src_path.parts.drop 1
  let dirs := if fs.is_file fuel src_path.segs then dirs0.dropLast else dirs0
  ⟨h.bckup_dst.isAbs, dirs.foldl (fun d n => d ++ [n]) h.bckup_dst.segs⟩

/-- model.py `DirHandler.add` (lines 439-460): resolve the source to an
absolute path, compute the mirrored destination, run `_copytree`
(discarding its int result; its exceptions propagate), and return the
destination path — not a list of failed entries. -/
def DirHandler.add (h : DirHandler) (fs : FS) (cwd path : PyPath)
    (fuel : Nat) : Option (Except OSErr (FS × List String)) :=
  let src_path := os_abspath cwd path
  let dst_path := h.dstPath fs src_path fuel
  match copytreeRun fuel fs src_path.segs dst_path.segs with
  | none => none
  | some (.error e) => some (.error e)
  | some (.ok (fs', _)) => some (.ok (fs', dst_path.segs))

/-- model.py `Container` (lines 353-403): proxy to a concrete handler. -/
structure Container where
  handler : DirHandler

/-- `Container.connect` (lines 392-397): delegates and falls off the end
of the function, returning None (`Unit`). -/
def Container.connect (c : Container) (fs : FS) : Except OSErr (FS × Unit) :=
  match c.handler.connect fs with
  | .error e => .error e
  | .ok (fs', _) => .ok (fs', ())

/-- `Container.add` (lines 399-403): delegates to the handler's `add`
and discards its result; the method body has no return statement, so the
caller receives None (`Unit`), never the handler's value and never a
failure list. -/
def Container.add (c : Container) (fs : FS) (cwd path : PyPath)
    (fuel : Nat) : Option (Except OSErr (FS × Unit)) :=
  match c.handler.add fs cwd path fuel with
  | none => none
  | some (.error e) => some (.error e)
  | some (.ok (fs', _)) => some (.ok (fs', ()))

/-! Theorems about the configuration checks. -/

/-- C3: `ConfOpt.check` tests in order with short-circuit — a type
mismatch yields code 2 (WRONG_TYPE) regardless of parent or predicate, a
parent mismatch yields 3 (WRONG_PARENT) even when the predicate would
pass, and otherwise the predicate decides between 4 (WRONG_VALUE) and 1
(OK). -/
theorem confOpt_check_order (o : ConfOpt) (ty : PyType) (par : List String)
    (pred : PyVal → Except PyErr Bool) :
    (isinstance o.value ty = false → o.check (ty, par, pred) = .ok 2) ∧
    (isinstance o.value ty = true → par ≠ o.option.dropLast →
      o.check (ty, par, pred) = .ok 3) ∧
    (isinstance o.value ty = true → par = o.option.dropLast →
      pred o.value = .ok false → o.check (ty, par, pred) = .ok 4) ∧
    (isinstance o.value ty = true → par = o.option.dropLast →
      pred o.value = .ok true → o.check (ty, par, pred) = .ok 1) := by
  refine ⟨?_, ?_, ?_, ?_⟩ <;> intros <;> simp_all [ConfOpt.check]

/-- Witness for C3 at a concrete option and rule (the wrong-type case,
predicate and parent both satisfied, still yields 2). -/
theorem confOpt_check_order_witness :
    (ConfOpt.init (.vtuple [("archive"), ("output")]) ("dir")
        (.vstr ("/home/user"))).check
      (.tint, [("archive"), ("output")], path_check) = .ok 2 :=
  (confOpt_check_order _ _ _ _).1 rfl

/-- C7 is false on the code: `path_check` passes its whole argument to
`pathlib.Path`, which rejects a list with TypeError, so a list-valued
option is never checked element-wise (the repository's own tests
`test_path_check_list` and `test_check_list` expect element-wise
success instead). -/
theorem path_check_list_raises :
    path_check (.vlist [.vstr ("/home/user"), .vstr ("/var/log")]) =
      .error .typeError ∧
    (ConfOpt.init (.vtuple [("archive"), ("output")]) ("dir")
        (.vlist [.vstr ("/home/user"), .vstr ("/usr/var/toto")])).check
      (.tlist, [("archive"), ("output")], path_check) = .error .typeError :=
  ⟨rfl, rfl⟩

/-- C10: a non-tuple parent (such as None) is silently discarded — the
option's full path becomes just `(key,)` and `is_key (key,)` holds. -/
theorem confOpt_nontuple_parent (parent : PyVal) (key : String) (value : PyVal)
    (h : ∀ xs, parent ≠ .vtuple xs) :
    (ConfOpt.init parent key value).option = [key] ∧
    (ConfOpt.init parent key value).is_key [key] = true := by
  cases parent <;> simp_all [ConfOpt.init, ConfOpt.is_key]

/-- Witness for C10 with parent None. -/
theorem confOpt_nontuple_parent_witness :
    (ConfOpt.init .vnone ("dir") (.vstr ("/home/user"))).option = [("dir")] ∧
    (ConfOpt.init .vnone ("dir") (.vstr ("/home/user"))).is_key [("dir")] = true :=
  confOpt_nontuple_parent _ _ _ (fun _ h => PyVal.noConfusion h)

/-! Theorems about the copy engine's path computations and returns. -/

/-- Folding `joinpath` over a segment list appends the segments. -/
theorem foldl_append_singleton (init l : List String) :
    l.foldl (fun d n => d ++ [n]) init = init ++ l := by
  induction l generalizing init with
  | nil => simp
  | cons x xs ih => simp [List.foldl_cons, ih, List.append_assoc]

/-- C4: the mirrored destination path is the destination root joined
with every segment of the source's absolute path, the final segment
dropped exactly when the source is a regular file, so a directory
source keeps its own name while a file is placed in its parent
hierarchy. -/
theorem add_mirrors_hierarchy (h : DirHandler) (fs : FS) (cwd path : PyPath)
    (fuel : Nat) (hcwd : cwd.isAbs = true) :
    (h.dstPath fs (os_abspath cwd path) fuel).segs =
      h.bckup_dst.segs ++
        (if fs.is_file fuel (os_abspath cwd path).segs then
          (os_abspath cwd path).segs.dropLast
        else (os_abspath cwd path).segs) := by
  have habs : (os_abspath cwd path).isAbs = true := by
    unfold os_abspath; cases hp : path.isAbs <;> simp [hp, hcwd]
  unfold DirHandler.dstPath PyPath.parts
  rw [habs]
  cases hfile : fs.is_file fuel (os_abspath cwd path).segs <;>
    simp [hfile, foldl_append_singleton]

/-- The filesystem used by several concrete runs below: a single regular
file `/a.txt`, no denied directories. -/
def fsA : FS := ⟨[(("a.txt"), Entry.file 0)], []⟩

/-- Witness for C4: backing up the regular file `/a.txt` under root
`/bk` targets `/bk` (the file's parent hierarchy is empty). -/
theorem add_mirrors_hierarchy_witness :
    (DirHandler.dstPath ⟨⟨true, [("bk")]⟩⟩ fsA
        (os_abspath ⟨true, []⟩ ⟨true, [("a.txt")]⟩) 5).segs =
      [("bk")] ++
        (if fsA.is_file 5 (os_abspath ⟨true, []⟩ ⟨true, [("a.txt")]⟩).segs then
          (os_abspath ⟨true, []⟩ ⟨true, [("a.txt")]⟩).segs.dropLast
        else (os_abspath ⟨true, []⟩ ⟨true, [("a.txt")]⟩).segs) :=
  add_mirrors_hierarchy _ _ _ _ _ rfl

/-- C9: the constructor stores `os.path.abspath` of its argument, so the
stored destination root is always absolute — a relative path is silently
resolved against the working directory — and `connect` therefore always
takes the directory-creating branch. -/
theorem dirHandler_init_abspath (cwd path : PyPath) (fs : FS)
    (hcwd : cwd.isAbs = true) :
    (DirHandler.init cwd path).bckup_dst.isAbs = true ∧
    (path.isAbs = false →
      (DirHandler.init cwd path).bckup_dst.segs = cwd.segs ++ path.segs) ∧
    DirHandler.connect (DirHandler.init cwd path) fs =
      (match fs.makedirs (DirHandler.init cwd path).bckup_dst.segs with
       | .error e => .error e
       | .ok fs' => .ok (fs', ())) := by
  have habs : (DirHandler.init cwd path).bckup_dst.isAbs = true := by
    unfold DirHandler.init os_abspath
    cases hp : path.isAbs <;> simp [hp, hcwd]
  refine ⟨habs, ?_, ?_⟩
  · intro hp
    unfold DirHandler.init os_abspath
    simp [hp]
  · unfold DirHandler.connect
    rw [habs]
    simp

/-- Witness for C9: constructing with relative path `bk` from working
directory `/` stores absolute `/bk` and connect creates it. -/
theorem dirHandler_init_abspath_witness :
    (DirHandler.init ⟨true, []⟩ ⟨false, [("bk")]⟩).bckup_dst.isAbs = true ∧
    ((⟨false, [("bk")]⟩ : PyPath).isAbs = false →
      (DirHandler.init ⟨true, []⟩ ⟨false, [("bk")]⟩).bckup_dst.segs =
        ([] : List String) ++ [("bk")]) ∧
    DirHandler.connect (DirHandler.init ⟨true, []⟩ ⟨false, [("bk")]⟩) ⟨[], []⟩ =
      (match FS.makedirs ⟨[], []⟩
          (DirHandler.init ⟨true, []⟩ ⟨false, [("bk")]⟩).bckup_dst.segs with
       | .error e => .error e
       | .ok fs' => .ok (fs', ())) :=
  dirHandler_init_abspath _ _ _ rfl

/-- C6 is false on the code: `connect` (and `Container.connect`) has no
return statement, so it returns None in both branches instead of a
readiness boolean; the absolute case creates the directory and the
non-absolute case mutates nothing, but neither is reported — the
entry point's `if backup.connect() is None` check is always true. -/
theorem connect_returns_none :
    DirHandler.connect ⟨⟨true, [("bk")]⟩⟩ ⟨[], []⟩ =
      .ok (⟨[(("bk"), Entry.dir [])], []⟩, ()) ∧
    DirHandler.connect ⟨⟨false, [("bk")]⟩⟩ ⟨[], []⟩ = .ok (⟨[], []⟩, ()) ∧
    Container.connect ⟨⟨⟨true, [("bk")]⟩⟩⟩ ⟨[], []⟩ =
      .ok (⟨[(("bk"), Entry.dir [])], []⟩, ()) :=
  ⟨rfl, rfl, rfl⟩

/-- C1 is false on the code: `DirHandler.add` returns the destination
path (here `/bk`), not a list of entries that failed, and
`Container.add` discards even that and returns None — although the
entry point extends a failure list with `backup.add(files)`. -/
theorem add_returns_dst_path_not_failures :
    DirHandler.add ⟨⟨true, [("bk")]⟩⟩ fsA ⟨true, []⟩ ⟨true, [("a.txt")]⟩ 5 =
      some (.ok
        (⟨[(("a.txt"), Entry.file 0),
           (("bk"), Entry.dir [(("a.txt"), Entry.file 0)])], []⟩, [("bk")])) ∧
    Container.add ⟨⟨⟨true, [("bk")]⟩⟩⟩ fsA ⟨true, []⟩ ⟨true, [("a.txt")]⟩ 5 =
      some (.ok
        (⟨[(("a.txt"), Entry.file 0),
           (("bk"), Entry.dir [(("a.txt"), Entry.file 0)])], []⟩, ())) :=
  ⟨rfl, rfl⟩

/-- C5 is false on the code: backing up `/a.txt` with backup root `/`
makes `shutil.copy2` collide with the source itself; `_copytree` has no
remove-and-retry and no failure list, so the SameFileError aborts the
whole `add` call as a fatal error. -/
theorem copytree_collision_fatal :
    DirHandler.add ⟨⟨true, []⟩⟩ fsA ⟨true, []⟩ ⟨true, [("a.txt")]⟩ 5 =
      some (.error .sameFileError) := rfl

/-- C5 amended: in the file/symlink branch of `_copytree`, any error
raised by `shutil.copy2` (a collision such as SameFileError included)
propagates unchanged: nothing is removed, the copy is not retried, and
no failed entry is recorded — the error is fatal to the `add` call. -/
theorem copy_error_propagates (fs fs1 : FS) (src dst : List String)
    (fuel : Nat) (e : OSErr)
    (hfile : isFileOrSymlink (fs.lookup src) = true)
    (hmk : fs.makedirs dst = .ok fs1)
    (hcp : fs1.copy2 src dst = .error e) :
    copytreeRun (fuel + 1) fs src dst = some (.error e) := by
  simp [copytreeRun, hfile, hmk, hcp]

/-- Witness for the amended C5 at the same-file collision input. -/
theorem copy_error_propagates_witness :
    copytreeRun 5 fsA [("a.txt")] [] = some (.error .sameFileError) :=
  copy_error_propagates fsA fsA _ _ 4 .sameFileError rfl rfl rfl

/-! The sanitize report (C2). -/

/-- A rule's report is empty exactly when the rule is satisfied: a
mandatory option is present, and an option found for the rule checks
OK. -/
theorem ruleReport_eq_nil (opts : List ConfOpt) (k : String) (r : SchemaRule) :
    ruleReport opts k r = [] ↔
      ((r.mandatory = true → ∃ o ∈ opts, o.is_key (ruleCand k r) = true) ∧
       (∀ o, lookupOpt opts (ruleCand k r) = some o →
          checkWithRule o r = .ok 1)) := by
  unfold ruleReport
  cases hl : lookupOpt opts (ruleCand k r) with
  | none =>
    constructor
    · intro h
      refine ⟨?_, ?_⟩
      · intro hm
        rw [hm] at h
        simp at h
      · intro o ho
        exact Option.noConfusion ho
    · rintro ⟨h1, -⟩
      cases hm : r.mandatory with
      | false => simp
      | true =>
        obtain ⟨o, ho, hk⟩ := h1 hm
        have := List.find?_eq_none.mp hl o ho
        simp [hk] at this
  | some o =>
    have hl' : opts.find? (fun o' => o'.is_key (ruleCand k r)) = some o := hl
    have hmem : o ∈ opts := List.mem_of_find?_eq_some hl'
    have hkey : o.is_key (ruleCand k r) = true := by
      simpa using List.find?_some hl'
    by_cases hc : checkWithRule o r = .ok 1
    · constructor
      · intro _
        exact ⟨fun _ => ⟨o, hmem, hkey⟩,
          fun o' ho' => by injection ho' with h; exact h ▸ hc⟩
      · intro _
        show (if checkWithRule o r = Except.ok 1 then ([] : List (List String))
          else [o.option]) = []
        rw [if_pos hc]
    · constructor
      · intro h
        have h' : (if checkWithRule o r = Except.ok 1
            then ([] : List (List String)) else [o.option]) = [] := h
        rw [if_neg hc] at h'
        exact absurd h' (by simp)
      · rintro ⟨-, h2⟩
        exact absurd (h2 o rfl) hc

/-- C2: the sanitize report is empty exactly when the configuration is
fully schema-compliant, and a declared mandatory key that is absent from
the configuration contributes its declared full path to the report. -/
theorem sanitize_empty_iff (opts : List ConfOpt)
    (schema : List (String × SchemaRule)) :
    (sanitize opts schema = [] ↔ schemaCompliant opts schema) ∧
    (∀ k r, (k, r) ∈ schema → r.mandatory = true →
      lookupOpt opts (ruleCand k r) = none →
      ruleCand k r ∈ sanitize opts schema) := by
  constructor
  · unfold sanitize schemaCompliant
    rw [List.append_eq_nil, List.map_eq_nil_iff, List.filter_eq_nil_iff,
      List.flatMap_eq_nil_iff]
    constructor
    · rintro ⟨hrules, hopts⟩
      refine ⟨?_, ?_, ?_⟩
      · intro kr hkr hm
        exact ((ruleReport_eq_nil opts kr.1 kr.2).mp (hrules kr hkr)).1 hm
      · intro kr hkr o ho
        exact ((ruleReport_eq_nil opts kr.1 kr.2).mp (hrules kr hkr)).2 o ho
      · intro o ho
        have := hopts o ho
        simpa using this
    · rintro ⟨h1, h2, h3⟩
      refine ⟨?_, ?_⟩
      · intro kr hkr
        exact (ruleReport_eq_nil opts kr.1 kr.2).mpr ⟨h1 kr hkr, h2 kr hkr⟩
      · intro o ho
        simp [h3 o ho]
  · intro k r hkr hm hl
    apply List.mem_append_left
    apply List.mem_flatMap.mpr
    refine ⟨(k, r), hkr, ?_⟩
    simp [ruleReport, hl, hm]

/-- The schema rule for a mandatory top-level key with no check
callable, used by the C2 witness. -/
def ruleLog : SchemaRule := ⟨true, .tstr, [], none⟩

/-- The configuration options of the C2 witness: one option
`archive.input`. -/
def optsW : List ConfOpt :=
  [ConfOpt.init (.vtuple [("archive")]) ("input") (.vstr ("/home"))]

/-- The schema of the C2 witness: `archive.input` (mandatory, checked
with `path_check`) and a mandatory top-level `log` that the
configuration lacks. -/
def schemaW : List (String × SchemaRule) :=
  [(("input"), ⟨true, .tstr, [("archive")], some path_check⟩),
   (("log"), ruleLog)]

/-- Witness for C2: the missing mandatory key `log` appears in the
report under its declared full path. -/
theorem sanitize_empty_iff_witness :
    ruleCand ("log") ruleLog ∈ sanitize optsW schemaW :=
  (sanitize_empty_iff optsW schemaW).2 ("log") ruleLog
    (List.mem_cons_of_mem _ (List.mem_cons_self _ _)) rfl rfl

/-! Path order: `PathLe a b` holds when `b` lies in the subtree rooted
at `a` (including `a` itself).  Used to reason about which parts of the
filesystem `_copytree` can touch. -/

/-- `a` is an initial segment of `b`. -/
def PathLe (a b : List String) : Prop := ∃ t, a ++ t = b

theorem pathLe_refl (a : List String) : PathLe a a := ⟨[], by simp⟩

theorem pathLe_nil (b : List String) : PathLe [] b := ⟨b, rfl⟩

theorem pathLe_append (a t : List String) : PathLe a (a ++ t) := ⟨t, rfl⟩

theorem pathLe_trans {a b c : List String} (h1 : PathLe a b)
    (h2 : PathLe b c) : PathLe a c := by
  obtain ⟨t, rfl⟩ := h1
  obtain ⟨s, rfl⟩ := h2
  exact ⟨t ++ s, by simp⟩

theorem pathLe_cons_iff {x : String} {a b : List String} :
    PathLe (x :: a) (x :: b) ↔ PathLe a b := by
  constructor
  · rintro ⟨t, ht⟩
    exact ⟨t, by simpa using ht⟩
  · rintro ⟨t, rfl⟩
    exact ⟨t, rfl⟩

/-- Two initial segments of the same list are comparable. -/
theorem pathLe_comparable : ∀ (a b c : List String),
    PathLe a c → PathLe b c → PathLe a b ∨ PathLe b a := by
  intro a
  induction a with
  | nil => intro b c _ _; exact Or.inl (pathLe_nil b)
  | cons x a' ih =>
    intro b c hac hbc
    cases b with
    | nil => exact Or.inr (pathLe_nil (x :: a'))
    | cons y b' =>
      obtain ⟨t, ht⟩ := hac
      obtain ⟨s, hs⟩ := hbc
      rw [← ht] at hs
      simp only [List.cons_append, List.cons.injEq] at hs
      obtain ⟨rfl, hs2⟩ := hs
      rcases ih b' (a' ++ t) (pathLe_append a' t) ⟨s, hs2⟩ with h | h
      · exact Or.inl (pathLe_cons_iff.mpr h)
      · exact Or.inr (pathLe_cons_iff.mpr h)

/-- An initial segment of `a ++ [n]` is an initial segment of `a` or all
of `a ++ [n]`. -/
theorem pathLe_snoc {p a : List String} {n : String}
    (hp : PathLe p (a ++ [n])) : PathLe p a ∨ p = a ++ [n] := by
  rcases pathLe_comparable p a (a ++ [n]) hp (pathLe_append a [n]) with h | h
  · exact Or.inl h
  · obtain ⟨t, ht⟩ := h
    obtain ⟨s, hs⟩ := hp
    rw [← ht, List.append_assoc] at hs
    have hts : t ++ s = [n] := by
      have := List.append_cancel_left hs
      exact this
    cases t with
    | nil =>
      left
      rw [← ht]
      simpa using pathLe_refl a
    | cons u t' =>
      right
      simp only [List.cons_append, List.cons.injEq] at hts
      obtain ⟨rfl, hts2⟩ := hts
      obtain ⟨rfl, rfl⟩ := List.append_eq_nil.mp hts2
      rw [← ht]

/-- Extending the destination by one segment keeps it incomparable with
any path incomparable with the original destination. -/
theorem not_pathLe_extend {p d : List String} (n : String)
    (h1 : ¬ PathLe p d) (h2 : ¬ PathLe d p) :
    ¬ PathLe p (d ++ [n]) ∧ ¬ PathLe (d ++ [n]) p := by
  constructor
  · intro h
    rcases pathLe_snoc h with h' | rfl
    · exact h1 h'
    · exact h2 (pathLe_append d [n])
  · intro h
    exact h2 (pathLe_trans (pathLe_append d [n]) h)

/-- Appending the same segment to two incomparable paths keeps them
incomparable. -/
theorem not_pathLe_snoc_both {a b : List String} (n : String)
    (h1 : ¬ PathLe a b) (h2 : ¬ PathLe b a) :
    ¬ PathLe (a ++ [n]) (b ++ [n]) ∧ ¬ PathLe (b ++ [n]) (a ++ [n]) := by
  have key : ∀ (x y : List String), ¬ PathLe x y → ¬ PathLe y x →
      ¬ PathLe (x ++ [n]) (y ++ [n]) := by
    intro x y hxy hyx h
    rcases pathLe_snoc h with h' | h'
    · exact hxy (pathLe_trans (pathLe_append x [n]) h')
    · exact hxy (List.append_cancel_right h' ▸ pathLe_refl y)
  exact ⟨key a b h1 h2, key b a h2 h1⟩

/-- Boolean test for `PathLe`. -/
def pathLeB : List String → List String → Bool
  | [], _ => true
  | _ :: _, [] => false
  | x :: a, y :: b => x == y && pathLeB a b

theorem pathLeB_iff : ∀ (a b : List String), pathLeB a b = true ↔ PathLe a b := by
  intro a
  induction a with
  | nil => intro b; simpa [pathLeB] using pathLe_nil b
  | cons x a' ih =>
    intro b
    cases b with
    | nil =>
      constructor
      · intro h; simp [pathLeB] at h
      · rintro ⟨t, ht⟩; simp at ht
    | cons y b' =>
      simp only [pathLeB, Bool.and_eq_true, beq_iff_eq, ih b']
      constructor
      · rintro ⟨rfl, h⟩
        exact pathLe_cons_iff.mpr h
      · rintro ⟨t, ht⟩
        simp only [List.cons_append, List.cons.injEq] at ht
        exact ⟨ht.1, ⟨t, ht.2⟩⟩

instance (a b : List String) : Decidable (PathLe a b) :=
  decidable_of_iff _ (pathLeB_iff a b)

/-! Lemmas about lookup and write on the filesystem tree. -/

theorem findChild_setChild_self : ∀ (cs : List (String × Entry)) (n : String)
    (e : Entry), findChild (setChild cs n e) n = some e := by
  intro cs
  induction cs with
  | nil => intro n e; simp [setChild, findChild]
  | cons c cs ih =>
    intro n e
    by_cases h : c.1 == n
    · simp [setChild, findChild, h]
    · simp only [setChild, h, if_false, Bool.false_eq_true]
      simpa [findChild, h] using ih n e

theorem findChild_setChild_ne : ∀ (cs : List (String × Entry)) (n m : String)
    (e : Entry), m ≠ n → findChild (setChild cs n e) m = findChild cs m := by
  intro cs
  induction cs with
  | nil =>
    intro n m e hmn
    simp [setChild, findChild, List.find?, show (n == m) = false by
      simpa using fun h => hmn h.symm]
  | cons c cs ih =>
    intro n m e hmn
    by_cases h : c.1 == n
    · have hcm : (c.1 == m) = false := by
        have : c.1 = n := by simpa using h
        simpa [this] using fun h' => hmn h'.symm
      simp [setChild, findChild, h, List.find?, hcm,
        show (n == m) = false by simpa using fun h' => hmn h'.symm]
    · by_cases hcm : c.1 == m
      · simp [setChild, findChild, h, List.find?, hcm]
      · simp only [setChild, h, if_false, Bool.false_eq_true]
        simpa [findChild, List.find?, hcm] using ih n m e hmn

theorem Entry.lookup_append : ∀ (a b : List String) (e : Entry),
    e.lookup (a ++ b) = (e.lookup a).bind (fun e' => e'.lookup b) := by
  intro a
  induction a with
  | nil => intro b e; cases e <;> rfl
  | cons n a' ih =>
    intro b e
    cases e with
    | file c => rfl
    | symlink t => rfl
    | dir cs =>
      show Entry.lookup (.dir cs) (n :: (a' ++ b)) = _
      simp only [Entry.lookup]
      cases findChild cs n with
      | none => rfl
      | some e2 => exact ih b e2

theorem FS.lookup_split (fs : FS) (a b : List String) :
    fs.lookup (a ++ b) = (fs.lookup a).bind (fun e' => e'.lookup b) :=
  Entry.lookup_append a b _

/-- If a path has an entry, so does every initial segment of it. -/
theorem FS.lookup_isSome_of_pathLe (fs : FS) {a b : List String}
    (h : PathLe a b) (hb : (fs.lookup b).isSome = true) :
    (fs.lookup a).isSome = true := by
  obtain ⟨t, rfl⟩ := h
  rw [FS.lookup_split] at hb
  cases hl : fs.lookup a with
  | none => rw [hl] at hb; simp at hb
  | some e => simp

theorem Entry.lookup_set_self : ∀ (w : List String) (e0 enew r : Entry),
    e0.set w enew = some r → r.lookup w = some enew := by
  intro w
  induction w with
  | nil =>
    intro e0 enew r h
    have h' : (some enew : Option Entry) = some r := by
      cases e0 <;> exact h
    injection h' with h'
    rw [← h']
    cases enew <;> rfl
  | cons n w' ih =>
    intro e0 enew r h
    cases e0 with
    | file c => exact Option.noConfusion h
    | symlink t => exact Option.noConfusion h
    | dir cs =>
      simp only [Entry.set] at h
      split at h
      · rename_i sub hf
        split at h
        · rename_i sub' hs
          injection h with h
          rw [← h]
          show Entry.lookup (.dir (setChild cs n sub')) (n :: w') = some enew
          simp only [Entry.lookup, findChild_setChild_self]
          exact ih sub enew sub' hs
        · exact Option.noConfusion h
      · rename_i hf
        split at h
        · injection h with h
          rw [← h]
          show Entry.lookup (.dir (setChild cs n enew)) [n] = some enew
          simp only [Entry.lookup, findChild_setChild_self]
        · exact Option.noConfusion h

theorem Entry.lookup_set_other : ∀ (w : List String) (e0 enew r : Entry)
    (p : List String), e0.set w enew = some r →
    ¬ PathLe w p → ¬ PathLe p w → r.lookup p = e0.lookup p := by
  intro w
  induction w with
  | nil => intro e0 enew r p _ h1 _; exact absurd (pathLe_nil p) h1
  | cons n w' ih =>
    intro e0 enew r p h h1 h2
    cases e0 with
    | file c => exact Option.noConfusion h
    | symlink t => exact Option.noConfusion h
    | dir cs =>
      simp only [Entry.set] at h
      cases p with
      | nil => exact absurd (pathLe_nil (n :: w')) h2
      | cons m p' =>
        split at h
        · rename_i sub hf
          split at h
          · rename_i sub' hs
            injection h with h
            rw [← h]
            show Entry.lookup (.dir (setChild cs n sub')) (m :: p') =
              Entry.lookup (.dir cs) (m :: p')
            by_cases hmn : m = n
            · subst hmn
              have h1' : ¬ PathLe w' p' := fun hx => h1 (pathLe_cons_iff.mpr hx)
              have h2' : ¬ PathLe p' w' := fun hx => h2 (pathLe_cons_iff.mpr hx)
              simp only [Entry.lookup, findChild_setChild_self, hf]
              exact ih sub enew sub' p' hs h1' h2'
            · simp only [Entry.lookup, findChild_setChild_ne cs n m sub' hmn]
          · exact Option.noConfusion h
        · rename_i hf
          split at h
          · injection h with h
            rw [← h]
            show Entry.lookup (.dir (setChild cs n enew)) (m :: p') =
              Entry.lookup (.dir cs) (m :: p')
            by_cases hmn : m = n
            · subst hmn
              exact absurd (pathLe_cons_iff.mpr (pathLe_nil p')) h1
            · simp only [Entry.lookup, findChild_setChild_ne cs n m enew hmn]
          · exact Option.noConfusion h

/-- Writing outside keeps the denied set and changes no entry at an
incomparable path. -/
theorem FS.writeEntry_lookup_other {fs fs' : FS} {w : List String}
    {e : Entry} (h : fs.writeEntry w e = some fs') (p : List String)
    (h1 : ¬ PathLe w p) (h2 : ¬ PathLe p w) :
    fs'.lookup p = fs.lookup p := by
  unfold FS.writeEntry at h
  cases hset : (Entry.dir fs.root).set w e with
  | none => rw [hset] at h; exact Option.noConfusion h
  | some ent =>
    rw [hset] at h
    cases ent with
    | file c => exact Option.noConfusion h
    | symlink t => exact Option.noConfusion h
    | dir r =>
      injection h with h
      rw [← h]
      show Entry.lookup (.dir r) p = fs.lookup p
      exact Entry.lookup_set_other w _ e _ p hset h1 h2

/-- After a successful write, the written path holds the new entry. -/
theorem FS.writeEntry_lookup_self {fs fs' : FS} {w : List String}
    {e : Entry} (h : fs.writeEntry w e = some fs') :
    fs'.lookup w = some e := by
  unfold FS.writeEntry at h
  cases hset : (Entry.dir fs.root).set w e with
  | none => rw [hset] at h; exact Option.noConfusion h
  | some ent =>
    rw [hset] at h
    cases ent with
    | file c => exact Option.noConfusion h
    | symlink t => exact Option.noConfusion h
    | dir r =>
      injection h with h
      rw [← h]
      exact Entry.lookup_set_self w _ e _ hset

/-! Preservation lemmas: each filesystem operation of the copy engine
leaves every entry outside the destination subtree untouched. -/

/-- `makedirs` only creates missing directories along its argument, so
any existing entry at a path that is not an initial segment of the
target is preserved. -/
theorem makedirsGo_lookup : ∀ (rest : List String) (fs : FS)
    (done : List String) (fs' : FS), makedirsGo fs done rest = .ok fs' →
    ∀ (p : List String) (e : Entry), fs.lookup p = some e →
    ¬ PathLe p (done ++ rest) → fs'.lookup p = some e := by
  intro rest
  induction rest with
  | nil =>
    intro fs done fs' h p e hp _
    injection h with h
    rw [← h]
    exact hp
  | cons n rest' ih =>
    intro fs done fs' h p e hp hple
    have hrearr : done ++ n :: rest' = (done ++ [n]) ++ rest' := by simp
    simp only [makedirsGo] at h
    split at h
    · rename_i hl
      exact ih fs (done ++ [n]) fs' h p e hp (by rw [hrearr] at hple; exact hple)
    · exact Except.noConfusion h
    · rename_i hl
      split at h
      · exact Except.noConfusion h
      · split at h
        · rename_i fs1 hw
          have hnp : ¬ PathLe (done ++ [n]) p := by
            intro hle
            have := fs.lookup_isSome_of_pathLe hle (by rw [hp]; rfl)
            rw [hl] at this
            exact Bool.noConfusion this
          have hpn : ¬ PathLe p (done ++ [n]) := by
            intro hle
            exact hple (pathLe_trans hle (by rw [hrearr]; exact pathLe_append _ _))
          have hp1 : fs1.lookup p = some e := by
            rw [FS.writeEntry_lookup_other hw p hnp hpn]
            exact hp
          exact ih fs1 (done ++ [n]) fs' h p e hp1 (by rw [hrearr] at hple; exact hple)
        · exact Except.noConfusion h

/-- `copy2` writes only at the destination (or one segment below it). -/
theorem copy2_lookup {fs fs' : FS} {s d : List String}
    (h : fs.copy2 s d = .ok fs') (p : List String) (e : Entry)
    (hp : fs.lookup p = some e) (h1 : ¬ PathLe p d) (h2 : ¬ PathLe d p) :
    fs'.lookup p = some e := by
  unfold FS.copy2 at h
  split at h
  · exact Except.noConfusion h
  · exact Except.noConfusion h
  · rename_i e0 hne1 hne2
    have htle : ¬ PathLe (copyTarget fs s d) p ∧ ¬ PathLe p (copyTarget fs s d) := by
      unfold copyTarget
      split
      · exact ⟨(not_pathLe_extend _ h1 h2).2, (not_pathLe_extend _ h1 h2).1⟩
      · exact ⟨h2, h1⟩
    split at h
    · exact Except.noConfusion h
    · split at h
      · exact Except.noConfusion h
      · split at h
        · rename_i fs1 hw
          injection h with h
          rw [← h]
          rw [FS.writeEntry_lookup_other hw p htle.1 htle.2]
          exact hp
        · exact Except.noConfusion h

/-- `shutil.copytree` writes only at and below the destination. -/
theorem copytreeLib_lookup {fs fs' : FS} {s d : List String}
    (h : fs.copytreeLib s d = .ok fs') (p : List String) (e : Entry)
    (hp : fs.lookup p = some e) (h1 : ¬ PathLe p d) (h2 : ¬ PathLe d p) :
    fs'.lookup p = some e := by
  unfold FS.copytreeLib at h
  split at h
  · exact Except.noConfusion h
  · rename_i cs hs
    split at h
    · exact Except.noConfusion h
    · split at h
      · exact Except.noConfusion h
      · rename_i fs1 hmk
        split at h
        · rename_i fs2 hw
          injection h with h
          rw [← h]
          have hp1 : fs1.lookup p = some e :=
            makedirsGo_lookup d fs [] fs1 hmk p e hp h1
          rw [FS.writeEntry_lookup_other hw p h2 h1]
          exact hp1
        · exact Except.noConfusion h
  · exact Except.noConfusion h

/-- Frame property of the children loop, given the frame property of
the recursive call: a successful run changes no entry at a path
incomparable with the destination. -/
theorem copyChildren_frame
    (rec : FS → List String → List String → Option (Except OSErr (FS × Nat)))
    (hrec : ∀ fs s d fs' k, rec fs s d = some (.ok (fs', k)) →
      ∀ p e, fs.lookup p = some e → ¬ PathLe p d → ¬ PathLe d p →
      fs'.lookup p = some e) :
    ∀ (ns : List String) (fs : FS) (src dst : List String) (fs' : FS),
    copyChildren rec fs src dst ns = some (.ok fs') →
    ∀ p e, fs.lookup p = some e → ¬ PathLe p dst → ¬ PathLe dst p →
    fs'.lookup p = some e := by
  intro ns
  induction ns with
  | nil =>
    intro fs src dst fs' h p e hp _ _
    simp only [copyChildren, Option.some.injEq, Except.ok.injEq] at h
    rw [← h]
    exact hp
  | cons n ns' ih =>
    intro fs src dst fs' h p e hp h1 h2
    simp only [copyChildren] at h
    split at h
    · split at h
      · simp at h
      · rename_i fs1 hcp
        exact ih fs1 src dst fs' h p e (copy2_lookup hcp p e hp h1 h2) h1 h2
    · split at h
      · exact Option.noConfusion h
      · simp at h
      · rename_i fs1 k hrun
        have hext := not_pathLe_extend (p := p) (d := dst) n h1 h2
        exact ih fs1 src dst fs' h p e
          (hrec fs (src ++ [n]) (dst ++ [n]) fs1 k hrun p e hp hext.1 hext.2)
          h1 h2

/-- Frame property of `_copytree`: a successful run changes no entry at
a path incomparable with the destination. -/
theorem copytreeRun_frame : ∀ (fuel : Nat) (fs : FS) (src dst : List String)
    (fs' : FS) (k : Nat), copytreeRun fuel fs src dst = some (.ok (fs', k)) →
    ∀ p e, fs.lookup p = some e → ¬ PathLe p dst → ¬ PathLe dst p →
    fs'.lookup p = some e := by
  intro fuel
  induction fuel with
  | zero => intro fs src dst fs' k h; exact Option.noConfusion h
  | succ f ih =>
    intro fs src dst fs' k h p e hp h1 h2
    simp only [copytreeRun] at h
    split at h
    · split at h
      · simp only [Option.some.injEq, Except.ok.injEq, Prod.mk.injEq] at h
        rw [← h.1]
        exact hp
      · simp at h
      · rename_i fs1 hmk
        split at h
        · simp at h
        · rename_i fs2 hcp
          simp only [Option.some.injEq, Except.ok.injEq, Prod.mk.injEq] at h
          rw [← h.1]
          exact copy2_lookup hcp p e
            (makedirsGo_lookup dst fs [] fs1 hmk p e hp h1) h1 h2
    · split at h
      · split at h
        · rename_i cs hcs
          split at h
          · exact Option.noConfusion h
          · simp at h
          · rename_i fs1 hch
            simp only [Option.some.injEq, Except.ok.injEq, Prod.mk.injEq] at h
            rw [← h.1]
            exact copyChildren_frame (copytreeRun f) ih _ fs src dst fs1 hch
              p e hp h1 h2
        · simp at h
      · split at h
        · simp at h
        · rename_i fs1 hlib
          simp only [Option.some.injEq, Except.ok.injEq, Prod.mk.injEq] at h
          rw [← h.1]
          exact copytreeLib_lookup hlib p e hp h1 h2

/-! A size measure on filesystem entries: symlinks are leaves (their
target is data, not content), so the measure of a source tree bounds the
recursion depth of `_copytree` — the heart of claim C8. -/

mutual

def Entry.size : Entry → Nat
  | .file _ => 1
  | .symlink _ => 1
  | .dir cs => 1 + childrenSize cs

def childrenSize : List (String × Entry) → Nat
  | [] => 0
  | c :: cs => c.2.size + childrenSize cs

end

theorem childrenSize_findChild : ∀ (cs : List (String × Entry)) (n : String)
    (en : Entry), findChild cs n = some en → en.size ≤ childrenSize cs := by
  intro cs
  induction cs with
  | nil => intro n en h; simp [findChild] at h
  | cons c cs ih =>
    intro n en h
    cases hc : (c.1 == n) with
    | true =>
      simp only [findChild, List.find?, hc, Option.map_some',
        Option.some.injEq] at h
      rw [← h]
      simp only [childrenSize]
      omega
    | false =>
      simp only [findChild, List.find?, hc] at h
      have := ih n en h
      simp only [childrenSize]
      omega

/-- Looking up a single further segment in a directory finds the child. -/
theorem Entry.lookup_single (cs : List (String × Entry)) (n : String) :
    Entry.lookup (.dir cs) [n] = findChild cs n := by
  simp only [Entry.lookup]
  cases findChild cs n with
  | none => rfl
  | some e => cases e <;> rfl

/-- The file/symlink branch of `_copytree` makes no recursive call, so
its outcome does not depend on the fuel. -/
theorem copytreeRun_indep_file (fs : FS) (s d : List String)
    (hfs : isFileOrSymlink (fs.lookup s) = true) (g₁ g₂ : Nat) :
    copytreeRun (g₁ + 1) fs s d = copytreeRun (g₂ + 1) fs s d ∧
    (copytreeRun (g₁ + 1) fs s d).isSome = true := by
  constructor
  · simp only [copytreeRun, hfs, if_true]
  · simp only [copytreeRun, hfs, if_true]
    cases hmk : fs.makedirs d with
    | error e => cases e <;> simp [hmk]
    | ok fs1 => cases hcp : fs1.copy2 s d <;> simp [hmk, hcp]

/-- On a missing source, `_copytree` fails fast without recursion, so
its outcome does not depend on the fuel. -/
theorem copytreeRun_indep_missing (fs : FS) (s d : List String)
    (hs : fs.lookup s = none) (g₁ g₂ : Nat) :
    copytreeRun (g₁ + 1) fs s d = copytreeRun (g₂ + 1) fs s d ∧
    (copytreeRun (g₁ + 1) fs s d).isSome = true := by
  have hfs' : isFileOrSymlink none = false := rfl
  constructor
  · simp only [copytreeRun, hs, hfs', Bool.false_eq_true, if_false]
  · simp only [copytreeRun, hs, hfs', Bool.false_eq_true, if_false]
    by_cases hd : (fs.lookup d).isSome
    · simp [hd]
    · have hd' : (fs.lookup d).isSome = false := by
        revert hd; cases (fs.lookup d).isSome <;> simp
      simp only [hd', Bool.false_eq_true, if_false]
      unfold FS.copytreeLib
      rw [hs]
      rfl

/-- Adequacy of the children loop: given fuel-independence for smaller
sources (the strong-induction hypothesis `ihN`), the loop's outcome over
a directory's children is fuel-independent and defined, for any fuel at
least `N` — the key step being that directory children are strictly
smaller than the directory, and that symlink children are copied by
`copy2` without recursion. -/
theorem copyChildren_adequate
    (N : Nat)
    (ihN : ∀ M, M < N → ∀ (e : Entry) (fs : FS) (src dst : List String),
      e.size ≤ M → fs.lookup src = some e →
      ¬ PathLe src dst → ¬ PathLe dst src →
      ∀ f₁ f₂, M < f₁ → M < f₂ →
      copytreeRun f₁ fs src dst = copytreeRun f₂ fs src dst ∧
        (copytreeRun f₁ fs src dst).isSome = true)
    (cs : List (String × Entry)) (src dst : List String)
    (h1 : ¬ PathLe src dst) (h2 : ¬ PathLe dst src)
    (hsz : childrenSize cs < N) :
    ∀ (ns : List String) (fs : FS), fs.lookup src = some (.dir cs) →
    ∀ g₁ g₂, N ≤ g₁ → N ≤ g₂ →
    copyChildren (copytreeRun g₁) fs src dst ns =
      copyChildren (copytreeRun g₂) fs src dst ns ∧
    (copyChildren (copytreeRun g₁) fs src dst ns).isSome = true := by
  intro ns
  induction ns with
  | nil => intro fs hfs g₁ g₂ _ _; exact ⟨rfl, rfl⟩
  | cons n ns' ih =>
    intro fs hfs g₁ g₂ hg₁ hg₂
    have hchild : fs.lookup (src ++ [n]) = findChild cs n := by
      rw [FS.lookup_split, hfs]
      exact Entry.lookup_single cs n
    have hextp := not_pathLe_extend (p := src) (d := dst) n h1 h2
    have hboth := not_pathLe_snoc_both (a := src) (b := dst) n h1 h2
    cases hfc : findChild cs n with
    | some en =>
      have hlk : fs.lookup (src ++ [n]) = some en := by rw [hchild, hfc]
      cases en with
      | file c =>
        have hfl : isFileOrSymlink (fs.lookup (src ++ [n])) = true := by
          rw [hlk]; rfl
        simp only [copyChildren, hfl, if_true]
        cases hcp : fs.copy2 (src ++ [n]) dst with
        | error e => simp [hcp]
        | ok fs1 =>
          simp only [hcp]
          exact ih fs1 (copy2_lookup hcp src _ hfs h1 h2) g₁ g₂ hg₁ hg₂
      | symlink t =>
        have hfl : isFileOrSymlink (fs.lookup (src ++ [n])) = true := by
          rw [hlk]; rfl
        simp only [copyChildren, hfl, if_true]
        cases hcp : fs.copy2 (src ++ [n]) dst with
        | error e => simp [hcp]
        | ok fs1 =>
          simp only [hcp]
          exact ih fs1 (copy2_lookup hcp src _ hfs h1 h2) g₁ g₂ hg₁ hg₂
      | dir cs2 =>
        have hfl : isFileOrSymlink (fs.lookup (src ++ [n])) = false := by
          rw [hlk]; rfl
        have hsz2 : (Entry.dir cs2).size ≤ N - 1 := by
          have := childrenSize_findChild cs n _ hfc
          omega
        have hrun := ihN (N - 1) (by omega) (Entry.dir cs2) fs (src ++ [n])
          (dst ++ [n]) hsz2 hlk hboth.1 hboth.2 g₁ g₂ (by omega) (by omega)
        simp only [copyChildren, hfl, Bool.false_eq_true, if_false]
        cases hres : copytreeRun g₁ fs (src ++ [n]) (dst ++ [n]) with
        | none => rw [hres] at hrun; simp at hrun
        | some r =>
          have hres₂ : copytreeRun g₂ fs (src ++ [n]) (dst ++ [n]) = some r := by
            rw [← hrun.1, hres]
          rw [hres₂]
          cases r with
          | error e => exact ⟨rfl, rfl⟩
          | ok pr =>
            obtain ⟨fs1, k⟩ := pr
            have hfs1 : fs1.lookup src = some (.dir cs) :=
              copytreeRun_frame g₁ fs (src ++ [n]) (dst ++ [n]) fs1 k hres
                src _ hfs hextp.1 hextp.2
            exact ih fs1 hfs1 g₁ g₂ hg₁ hg₂
    | none =>
      have hlk : fs.lookup (src ++ [n]) = none := by rw [hchild, hfc]
      have hfl : isFileOrSymlink (fs.lookup (src ++ [n])) = false := by
        rw [hlk]; rfl
      obtain ⟨g₁', rfl⟩ : ∃ g, g₁ = g + 1 := ⟨g₁ - 1, by omega⟩
      obtain ⟨g₂', rfl⟩ : ∃ g, g₂ = g + 1 := ⟨g₂ - 1, by omega⟩
      have hrun := copytreeRun_indep_missing fs (src ++ [n]) (dst ++ [n])
        hlk g₁' g₂'
      simp only [copyChildren, hfl, Bool.false_eq_true, if_false]
      cases hres : copytreeRun (g₁' + 1) fs (src ++ [n]) (dst ++ [n]) with
      | none => rw [hres] at hrun; simp at hrun
      | some r =>
        have hres₂ : copytreeRun (g₂' + 1) fs (src ++ [n]) (dst ++ [n]) =
            some r := by
          rw [← hrun.1, hres]
        rw [hres₂]
        cases r with
        | error e => exact ⟨rfl, rfl⟩
        | ok pr =>
          obtain ⟨fs1, k⟩ := pr
          have hfs1 : fs1.lookup src = some (.dir cs) :=
            copytreeRun_frame (g₁' + 1) fs (src ++ [n]) (dst ++ [n]) fs1 k
              hres src _ hfs hextp.1 hextp.2
          exact ih fs1 hfs1 (g₁' + 1) (g₂' + 1) hg₁ hg₂

/-- Fuel adequacy for `_copytree`: when the destination subtree is
disjoint from the source subtree, any fuel exceeding the size of the
source entry yields the same, defined outcome. -/
theorem copytreeRun_fuel_indep : ∀ (N : Nat) (e : Entry) (fs : FS)
    (src dst : List String), e.size ≤ N → fs.lookup src = some e →
    ¬ PathLe src dst → ¬ PathLe dst src →
    ∀ f₁ f₂, N < f₁ → N < f₂ →
    copytreeRun f₁ fs src dst = copytreeRun f₂ fs src dst ∧
    (copytreeRun f₁ fs src dst).isSome = true := by
  intro N
  induction N using Nat.strong_induction_on with
  | _ N ihN =>
    intro e fs src dst hsz hsrc h1 h2 f₁ f₂ hf₁ hf₂
    obtain ⟨g₁, rfl⟩ : ∃ g, f₁ = g + 1 := ⟨f₁ - 1, by omega⟩
    obtain ⟨g₂, rfl⟩ : ∃ g, f₂ = g + 1 := ⟨f₂ - 1, by omega⟩
    cases e with
    | file c =>
      exact copytreeRun_indep_file fs src dst (by rw [hsrc]; rfl) g₁ g₂
    | symlink t =>
      exact copytreeRun_indep_file fs src dst (by rw [hsrc]; rfl) g₁ g₂
    | dir cs =>
      have hchN : childrenSize cs < N := by
        have h := hsz
        simp only [Entry.size] at h
        omega
      by_cases hd : (fs.lookup dst).isSome
      · have hcc := copyChildren_adequate N ihN cs src dst h1 h2 hchN
          (cs.map (fun c => c.1)) fs hsrc g₁ g₂ (by omega) (by omega)
        constructor
        · simp only [copytreeRun, hsrc, isFileOrSymlink, Bool.false_eq_true,
            if_false, hd, if_true, hcc.1]
        · simp only [copytreeRun, hsrc, isFileOrSymlink, Bool.false_eq_true,
            if_false, hd, if_true]
          cases hcr : copyChildren (copytreeRun g₁) fs src dst
              (cs.map (fun c => c.1)) with
          | none => rw [hcr] at hcc; simp at hcc
          | some r =>
            cases r with
            | error e => rfl
            | ok fs1 => rfl
      · have hd' : (fs.lookup dst).isSome = false := by
          revert hd; cases (fs.lookup dst).isSome <;> simp
        constructor
        · simp only [copytreeRun, hsrc, isFileOrSymlink, Bool.false_eq_true,
            if_false, hd']
        · simp only [copytreeRun, hsrc, isFileOrSymlink, Bool.false_eq_true,
            if_false, hd']
          cases hlib : fs.copytreeLib src dst <;> simp [hlib]

/-- A successful `copy2` leaves a copy of the source entry at its
computed target. -/
theorem copy2_writes {fs fs' : FS} {s d : List String} {e0 : Entry}
    (h : fs.copy2 s d = .ok fs') (hs : fs.lookup s = some e0) :
    ∃ tgt, fs'.lookup tgt = some e0 := by
  unfold FS.copy2 at h
  split at h
  · exact Except.noConfusion h
  · exact Except.noConfusion h
  · rename_i e1 hne he1
    rw [hs] at he1
    injection he1 with he1
    split at h
    · exact Except.noConfusion h
    · split at h
      · exact Except.noConfusion h
      · split at h
        · rename_i fs1 hw
          injection h with h
          refine ⟨copyTarget fs s d, ?_⟩
          rw [← h, he1]
          exact FS.writeEntry_lookup_self hw
        · exact Except.noConfusion h

/-- C8: when the destination lies outside the source subtree (and vice
versa), `_copytree` terminates on every source tree — any fuel above the
size of the source entry yields the same defined result, symlinks being
leaves of the measure because they are never descended into; moreover a
symlink source, even one whose target is itself or an ancestor, is
copied as a link with its target preserved. -/
theorem copytree_no_infinite_recursion (fs : FS) (src dst : List String)
    (e : Entry) (hsrc : fs.lookup src = some e)
    (h1 : ¬ PathLe src dst) (h2 : ¬ PathLe dst src)
    (f₁ f₂ : Nat) (hf₁ : e.size < f₁) (hf₂ : e.size < f₂) :
    copytreeRun f₁ fs src dst = copytreeRun f₂ fs src dst ∧
    (copytreeRun f₁ fs src dst).isSome = true ∧
    (∀ t fs' k, e = .symlink t →
      copytreeRun f₁ fs src dst = some (.ok (fs', k)) →
      ∃ tgt, fs'.lookup tgt = some (.symlink t)) := by
  have main := copytreeRun_fuel_indep e.size e fs src dst (le_refl _) hsrc
    h1 h2 f₁ f₂ hf₁ hf₂
  refine ⟨main.1, main.2, ?_⟩
  intro t fs' k het hrun
  subst het
  obtain ⟨g₁, rfl⟩ : ∃ g, f₁ = g + 1 := ⟨f₁ - 1, by omega⟩
  have hfl : isFileOrSymlink (fs.lookup src) = true := by rw [hsrc]; rfl
  simp only [copytreeRun, hfl, if_true] at hrun
  split at hrun
  · simp only [Option.some.injEq, Except.ok.injEq, Prod.mk.injEq] at hrun
    exact ⟨src, by rw [← hrun.1]; exact hsrc⟩
  · simp at hrun
  · rename_i fs1 hmk
    split at hrun
    · simp at hrun
    · rename_i fs2 hcp
      simp only [Option.some.injEq, Except.ok.injEq, Prod.mk.injEq] at hrun
      have hs1 : fs1.lookup src = some (.symlink t) :=
        makedirsGo_lookup dst fs [] fs1 hmk src _ hsrc h1
      obtain ⟨tgt, htgt⟩ := copy2_writes hcp hs1
      exact ⟨tgt, by rw [← hrun.1]; exact htgt⟩

/-- A source directory `/s` containing a symlink `loop` that points back
at `/s` itself, plus a regular file, next to a backup root `/bk`. -/
def fsR : FS :=
  ⟨[(("s"), Entry.dir [(("loop"), Entry.symlink [("s")]),
      (("f"), Entry.file 0)]),
    (("bk"), Entry.dir [])], []⟩

/-- The source entry of the C8 witness. -/
def eR : Entry :=
  Entry.dir [(("loop"), Entry.symlink [("s")]), (("f"), Entry.file 0)]

/-- Witness for C8: copying `/s` (which contains a symlink to itself)
to `/bk/s` terminates with the same result for fuels 4 and 9. -/
theorem copytree_no_infinite_recursion_witness :
    copytreeRun 4 fsR [("s")] [("bk"), ("s")] =
      copytreeRun 9 fsR [("s")] [("bk"), ("s")] ∧
    (copytreeRun 4 fsR [("s")] [("bk"), ("s")]).isSome = true ∧
    (∀ t fs' k, eR = .symlink t →
      copytreeRun 4 fsR [("s")] [("bk"), ("s")] = some (.ok (fs', k)) →
      ∃ tgt, fs'.lookup tgt = some (.symlink t)) :=
  copytree_no_infinite_recursion fsR [("s")] [("bk"), ("s")] eR rfl
    (by decide) (by decide) 4 9
    (by simp [eR, Entry.size, childrenSize])
    (by simp [eR, Entry.size, childrenSize])

end Tribud
